import Mathlib

/-!
Verification development for the PRBills application.

The core under verification is the billing-period normalization and
aggregation engine: `getBillMonthYear` (the period resolver in App.tsx),
its copy `formatPeriod` (BillHistory.tsx), the list filtering
(`filteredBills`), the biller grouping (`groupedBills`), and the report
aggregation (`chartData`, ReportDashboard.tsx).

JavaScript runtime facilities consulted by the code (the local timezone,
the default locale used by `toLocaleString`, and the implementation -
defined generic date parser behind `new Date(string)`) are modelled as an
explicit environment `JSEnv`; every function that consults them takes the
environment as a parameter.  Machine numbers: `amount` is a decimal
number, modelled as `Rat`; `createdAt` is an epoch-milliseconds integer,
modelled as `Int` (exact in JS doubles for all realistic timestamps).
-/

namespace PRBills

/-- Bill status enum from types.ts: `'paid' | 'unpaid'`. -/
inductive BillStatus where
  | paid
  | unpaid
deriving DecidableEq, Repr

/-- BillRecord from types.ts: BillData plus id, createdAt, status. -/
structure BillRecord where
  id : String
  billName : String
  dateOfPeriod : String
  dueDate : Option String
  amount : Rat
  currency : String
  summary : Option String
  createdAt : Int
  status : BillStatus
deriving DecidableEq, Repr

/-- JS `String.prototype.toLowerCase` restricted to the basic-latin
characters actually compared by the code. -/
def jsToLowerStr (s : String) : String :=
  String.mk (s.toList.map Char.toLower)

/-- JS `String.prototype.includes`: contiguous-substring test. -/
def jsIncludes (hay needle : String) : Bool :=
  decide (needle.toList <:+: hay.toList)

/-- Numeric value of a decimal digit character. -/
def digitVal (c : Char) : Nat := c.toNat - 48

/-- Value of a digit string, as computed by JS `parseInt` on an
all-digit string (leading zeros dropped). -/
def digitsToNat (l : List Char) : Nat :=
  l.foldl (fun a c => 10 * a + digitVal c) 0

/-- Candidate matches for the regex fragment `\d{1,2}` at the head of the
input, in greedy order (two digits first), each with the value of the
matched group and the remaining input. -/
def grp12 : List Char → List (Nat × List Char)
  | c1 :: c2 :: rest =>
    if c1.isDigit && c2.isDigit then
      [(digitsToNat [c1, c2], rest), (digitVal c1, c2 :: rest)]
    else if c1.isDigit then [(digitVal c1, c2 :: rest)] else []
  | [c1] => if c1.isDigit then [(digitVal c1, [])] else []
  | [] => []

/-- The regex fragment for a separator `[\/\-]` (slash or hyphen only,
as in the source). -/
def sepThen : List Char → Option (List Char)
  | c :: rest => if c = '/' || c = '-' then some rest else none
  | [] => none

/-- The regex fragment `(\d{4})` at the head of the input: value of the
four-digit group. -/
def fourDigits : List Char → Option Nat
  | a :: b :: c :: d :: _ =>
    if a.isDigit && b.isDigit && c.isDigit && d.isDigit then
      some (digitsToNat [a, b, c, d])
    else none
  | _ => none

/-- Attempt of `(\d{1,2})[\/\-](\d{1,2})[\/\-](\d{4})` anchored at the
head of the input, with JS backtracking semantics; returns the values of
the second (middle) and third (year) groups. -/
def numericMatchAt (l : List Char) : Option (Nat × Nat) :=
  (grp12 l).findSome? fun p1 =>
    (sepThen p1.2).bind fun r2 =>
      (grp12 r2).findSome? fun p2 =>
        (sepThen p2.2).bind fun r4 =>
          (fourDigits r4).map fun y => (p2.1, y)

/-- Leftmost match of the numeric date pattern, as JS
`string.match(/(\d{1,2})[\/\-](\d{1,2})[\/\-](\d{4})/)`. -/
def numericScan : List Char → Option (Nat × Nat)
  | [] => none
  | c :: rest =>
    match numericMatchAt (c :: rest) with
    | some r => some r
    | none => numericScan rest

/-- Attempt of the resolver year pattern `20[2-3]\d` anchored at the
head of the input; returns the matched four characters. -/
def yearMatchAt : List Char → Option String
  | a :: b :: c :: d :: _ =>
    if a = '2' && b = '0' && (c = '2' || c = '3') && d.isDigit then
      some (String.mk [a, b, c, d])
    else none
  | _ => none

/-- Leftmost match of `20[2-3]\d`, as JS `text.match(/20[2-3]\d/)`. -/
def yearScan : List Char → Option String
  | [] => none
  | c :: rest =>
    match yearMatchAt (c :: rest) with
    | some r => some r
    | none => yearScan rest

/-- Attempt of the report year pattern `20\d{2}` anchored at the head of
the input; returns the matched four characters. -/
def yearAnyMatchAt : List Char → Option String
  | a :: b :: c :: d :: _ =>
    if a = '2' && b = '0' && c.isDigit && d.isDigit then
      some (String.mk [a, b, c, d])
    else none
  | _ => none

/-- Leftmost match of `20\d{2}`, as JS `period.match(/20\d{2}/)`. -/
def yearAnyScan : List Char → Option String
  | [] => none
  | c :: rest =>
    match yearAnyMatchAt (c :: rest) with
    | some r => some r
    | none => yearAnyScan rest

/-- The `months` array of the resolver. -/
def monthsShort : List String :=
  ["Jan", "Feb", "Mar", "Apr", "May", "Jun",
   "Jul", "Aug", "Sep", "Oct", "Nov", "Dec"]

/-- Full month names, as listed in the resolver regex alternation. -/
def monthsFull : List String :=
  ["January", "February", "March", "April", "May", "June", "July",
   "August", "September", "October", "November", "December"]

/-- Alternatives of the month regex, in source order: the twelve short
names followed by the twelve full names. -/
def monthAlternatives : List String := monthsShort ++ monthsFull

/-- Case-insensitive equality of character lists (JS regex `i` flag on
the basic-latin month names). -/
def lowerEq (a b : List Char) : Bool :=
  decide (a.map Char.toLower = b.map Char.toLower)

/-- Attempt of the month alternation anchored at the head of the input:
the first alternative (in source order) matching case-insensitively;
returns the matched substring with its original casing. -/
def altMatchAt (l : List Char) : Option String :=
  monthAlternatives.findSome? fun a =>
    let pat := a.toList
    let pre := l.take pat.length
    if pre.length = pat.length && lowerEq pre pat then
      some (String.mk pre)
    else none

/-- Leftmost case-insensitive match of a full or short month name, as JS
`text.match(new RegExp(alternation, 'i'))`. -/
def monthScan : List Char → Option String
  | [] => none
  | c :: rest =>
    match altMatchAt (c :: rest) with
    | some r => some r
    | none => monthScan rest

/-- The resolver normalization: first three characters of the match,
first character upper-cased and the rest lower-cased. -/
def normalizeShortMonth (s : String) : String :=
  match s.toList.take 3 with
  | [] => ""
  | c :: rest => String.mk (c.toUpper :: rest.map Char.toLower)

/-- JS runtime environment: local timezone offset, default-locale month
and year formatting (`toLocaleString('default', ...)`), and the
implementation-defined generic string-to-date parser (`new Date(s)`,
returning epoch milliseconds when the result is a valid date). -/
structure JSEnv where
  offsetMinutes : Int
  localeMonthYear : Nat → Int → String
  parseDate : String → Option Int

/-- Proleptic-Gregorian calendar conversion (days since 1970-01-01 to
year and month 1-12), the standard civil-from-days algorithm. -/
def civilFromDays (z0 : Int) : Int × Nat :=
  let z : Int := z0 + 719468
  let era : Int := Int.tdiv (if 0 ≤ z then z else z - 146096) 146097
  let doe : Nat := (z - era * 146097).toNat
  let yoe : Nat := (doe - doe / 1460 + doe / 36524 - doe / 146096) / 365
  let doy : Nat := doe - (365 * yoe + yoe / 4 - yoe / 100)
  let mp : Nat := (5 * doy + 2) / 153
  let m : Nat := if mp < 10 then mp + 3 else mp - 9
  let y : Int := (yoe : Int) + era * 400 + (if m ≤ 2 then 1 else 0)
  (y, m)

/-- Local civil year and month of an epoch-milliseconds timestamp. -/
def localCivil (env : JSEnv) (ms : Int) : Int × Nat :=
  civilFromDays (Int.fdiv (ms + env.offsetMinutes * 60000) 86400000)

/-- JS `new Date(ms).getFullYear()` in the environment timezone. -/
def getFullYear (env : JSEnv) (ms : Int) : Int :=
  (localCivil env ms).1

/-- JS `new Date(ms).toLocaleString('default', { month: 'short',
year: 'numeric' })` in the environment locale and timezone. -/
def localeShortMonthYear (env : JSEnv) (ms : Int) : String :=
  env.localeMonthYear ((localCivil env ms).2 - 1) (getFullYear env ms)

/-- The combined search text of the resolver:
`` `${bill.dateOfPeriod} ${bill.dueDate || ''}` ``. -/
def searchText (bill : BillRecord) : String :=
  bill.dateOfPeriod ++ " " ++ bill.dueDate.getD ""

/-- Layers 3 and 4 of the resolver: generic date parse of `dateOfPeriod`
(accepted when the parsed local year exceeds 2000), else the
`createdAt` upload-timestamp fallback, both rendered by
`toLocaleString('default', { month: 'short', year: 'numeric' })`. -/
def resolverStep3 (env : JSEnv) (bill : BillRecord) : String :=
  match env.parseDate bill.dateOfPeriod with
  | some ms =>
    if 2000 < getFullYear env ms then localeShortMonthYear env ms
    else localeShortMonthYear env bill.createdAt
  | none => localeShortMonthYear env bill.createdAt

/-- Layer 2 of the resolver: textual month and year search over the
combined text; the year is the first `20[2-3]\d` match, else
`new Date(createdAt).getFullYear()`; a month match is normalized to a
title-cased three-letter name, checked against the valid twelve, and on
failure the later layers run. -/
def resolverStep2 (env : JSEnv) (bill : BillRecord) : String :=
  let year : String :=
    match yearScan (searchText bill).toList with
    | some y => y
    | none => toString (getFullYear env bill.createdAt)
  match monthScan (searchText bill).toList with
  | some m =>
    let normalized := normalizeShortMonth m
    if monthsShort.contains normalized then normalized ++ " " ++ year
    else resolverStep3 env bill
  | none => resolverStep3 env bill

/-- The period resolver `getBillMonthYear` from App.tsx, translated
layer by layer:
1. numeric date pattern on `dateOfPeriod` (DD/MM/YYYY assumed);
2. textual month and year search on `dateOfPeriod` plus `dueDate`;
3. generic date parse of `dateOfPeriod` (year must exceed 2000);
4. fallback to the `createdAt` upload timestamp. -/
def getBillMonthYear (env : JSEnv) (bill : BillRecord) : String :=
  match numericScan bill.dateOfPeriod.toList with
  | some (p2, p3) =>
    if 1 ≤ p2 && p2 ≤ 12 then monthsShort.getD (p2 - 1) "" ++ " " ++ toString p3
    else resolverStep2 env bill
  | none => resolverStep2 env bill

/-- Layers 3 and 4 of `formatPeriod` from BillHistory.tsx — a verbatim
copy of the resolver logic, embedded separately so that the agreement of
the two call sites is a theorem about two definitions. -/
def formatStep3 (env : JSEnv) (bill : BillRecord) : String :=
  match env.parseDate bill.dateOfPeriod with
  | some ms =>
    if 2000 < getFullYear env ms then localeShortMonthYear env ms
    else localeShortMonthYear env bill.createdAt
  | none => localeShortMonthYear env bill.createdAt

/-- Layer 2 of `formatPeriod` from BillHistory.tsx (verbatim copy of the
App.tsx logic). -/
def formatStep2 (env : JSEnv) (bill : BillRecord) : String :=
  let year : String :=
    match yearScan (searchText bill).toList with
    | some y => y
    | none => toString (getFullYear env bill.createdAt)
  match monthScan (searchText bill).toList with
  | some m =>
    let normalized := normalizeShortMonth m
    if monthsShort.contains normalized then normalized ++ " " ++ year
    else formatStep3 env bill
  | none => formatStep3 env bill

/-- The period formatter `formatPeriod` from BillHistory.tsx (verbatim
copy of the App.tsx resolver). -/
def formatPeriod (env : JSEnv) (bill : BillRecord) : String :=
  match numericScan bill.dateOfPeriod.toList with
  | some (p2, p3) =>
    if 1 ≤ p2 && p2 ≤ 12 then monthsShort.getD (p2 - 1) "" ++ " " ++ toString p3
    else formatStep2 env bill
  | none => formatStep2 env bill

/-- An en-US environment at UTC in which none of the probed strings
parses as a generic date (true in V8 of every string this development
evaluates under it). -/
def envEn : JSEnv where
  offsetMinutes := 0
  localeMonthYear := fun i y => monthsShort.getD i "" ++ " " ++ toString y
  parseDate := fun _ => none

/-- French short month names as produced by `toLocaleString` under the
fr-FR locale. -/
def frMonths : List String :=
  ["janv.", "févr.", "mars", "avr.", "mai", "juin",
   "juil.", "août", "sept.", "oct.", "nov.", "déc."]

/-- A fr-FR environment at UTC, differing from `envEn` only in the
locale formatting consulted by layers 3 and 4. -/
def envFr : JSEnv where
  offsetMinutes := 0
  localeMonthYear := fun i y => frMonths.getD i "" ++ " " ++ toString y
  parseDate := fun _ => none

/-- Status filter state from App.tsx: `'all' | 'paid' | 'unpaid'`. -/
inductive FilterStatus where
  | all
  | paid
  | unpaid
deriving DecidableEq, Repr

/-- The status condition of the list filter:
`filterStatus === 'all' || bill.status === filterStatus`. -/
def statusMatches (fs : FilterStatus) (st : BillStatus) : Bool :=
  match fs with
  | .all => true
  | .paid => st = BillStatus.paid
  | .unpaid => st = BillStatus.unpaid

/-- The search condition of the list filter: case-insensitive
containment in `billName`, or in `summary` when that is present and
non-empty (an empty JS string is falsy, so `bill.summary && ...` skips
it). -/
def matchesSearch (searchTerm : String) (b : BillRecord) : Bool :=
  jsIncludes (jsToLowerStr b.billName) (jsToLowerStr searchTerm) ||
    (match b.summary with
     | some s => decide (s ≠ "") && jsIncludes (jsToLowerStr s) (jsToLowerStr searchTerm)
     | none => false)

/-- The `filteredBills` memo of App.tsx: conjunction of the search,
status and month conditions over the record list. -/
def filteredBills (env : JSEnv) (bills : List BillRecord) (searchTerm : String)
    (filterStatus : FilterStatus) (filterMonth : String) : List BillRecord :=
  bills.filter fun bill =>
    matchesSearch searchTerm bill &&
    statusMatches filterStatus bill.status &&
    (decide (filterMonth = "all") || decide (getBillMonthYear env bill = filterMonth))

/-- The group label of the biller grouping:
`bill.billName || 'Unknown'`. -/
def billLabel (b : BillRecord) : String :=
  if b.billName = "" then "Unknown" else b.billName

/-- One step of building `groups` in BillHistory.tsx: push the record
onto the entry for its label, first-encounter order preserved. -/
def pushGroup : List (String × List BillRecord) → String → BillRecord →
    List (String × List BillRecord)
  | [], name, b => [(name, [b])]
  | (n, items) :: rest, name, b =>
    if n = name then (n, items ++ [b]) :: rest
    else (n, items) :: pushGroup rest name b

/-- A biller group as produced by `groupedBills`. -/
structure BillerGroup where
  name : String
  items : List BillRecord
  total : Rat
  latest : Int
deriving DecidableEq, Repr

/-- `items.reduce((sum, item) => sum + item.amount, 0)`. -/
def sumAmounts (l : List BillRecord) : Rat :=
  l.foldl (fun s i => s + i.amount) 0

/-- JS `i.createdAt || 0` (identity on numbers; kept for fidelity). -/
def jsOr0 (n : Int) : Int := if n = 0 then 0 else n

/-- JS `Math.max(...items.map(i => i.createdAt || 0))`; the groups this
is applied to are non-empty by construction, so the empty case (JS
`-Infinity`) is never reached and is given a dummy value. -/
def maxCreatedAt : List BillRecord → Int
  | [] => 0
  | i :: rest => rest.foldl (fun m b => max m (jsOr0 b.createdAt)) (jsOr0 i.createdAt)

/-- The `groupedBills` memo of BillHistory.tsx: group records by biller
label, attach the amount total and the latest `createdAt`, and sort by
the latest marker descending (JS comparator `b.latest - a.latest`,
stable sort). -/
def groupedBills (bills : List BillRecord) : List BillerGroup :=
  let groups := bills.foldl (fun gs b => pushGroup gs (billLabel b) b) []
  (groups.map fun g =>
      { name := g.1, items := g.2, total := sumAmounts g.2, latest := maxCreatedAt g.2 }).mergeSort
    fun a b => decide (b.latest ≤ a.latest)

/-- `getYearFromPeriod` of ReportDashboard.tsx: first `20\d{2}` match in
the raw period string, else the label "Unknown". -/
def getYearFromPeriod (period : String) : String :=
  match yearAnyScan period.toList with
  | some m => m
  | none => "Unknown"

/-- `getMonthFromPeriod` of ReportDashboard.tsx: strip every character
that is not an ASCII letter and lower-case the rest. -/
def getMonthFromPeriod (period : String) : String :=
  String.mk ((period.toList.filter fun c => c.isAlpha).map Char.toLower)

/-- The `MONTH_ORDER` table of ReportDashboard.tsx. -/
def MONTH_ORDER : List (String × Nat) :=
  [("jan", 0), ("january", 0), ("feb", 1), ("february", 1),
   ("mar", 2), ("march", 2), ("apr", 3), ("april", 3), ("may", 4),
   ("jun", 5), ("june", 5), ("jul", 6), ("july", 6), ("aug", 7), ("august", 7),
   ("sep", 8), ("september", 8), ("oct", 9), ("october", 9),
   ("nov", 10), ("november", 10), ("dec", 11), ("december", 11)]

/-- JS `MONTH_ORDER[month]` property lookup. -/
def monthOrderLookup (s : String) : Option Nat :=
  MONTH_ORDER.lookup s

/-- Report grouping mode: `'period' | 'biller'`. -/
inductive GroupByType where
  | period
  | biller
deriving DecidableEq, Repr

/-- The filter step of the `chartData` memo: biller and year filters. -/
def reportFilter (bills : List BillRecord) (selectedBiller selectedYear : String) :
    List BillRecord :=
  bills.filter fun bill =>
    (decide (selectedBiller = "all") || decide (bill.billName = selectedBiller)) &&
    (decide (selectedYear = "all") || decide (getYearFromPeriod bill.dateOfPeriod = selectedYear))

/-- The period bucket key of `chartData`: with a specific year selected,
the first space-separated token of the raw `dateOfPeriod`
(`bill.dateOfPeriod.split(' ')[0] || bill.dateOfPeriod`); in the
cross-year view, the raw `dateOfPeriod` itself
(`bill.dateOfPeriod || 'Unknown'`). -/
def reportPeriodKey (selectedYear : String) (bill : BillRecord) : String :=
  if selectedYear ≠ "all" then
    let t := String.mk (bill.dateOfPeriod.toList.takeWhile fun c => c ≠ ' ')
    if t = "" then bill.dateOfPeriod else t
  else if bill.dateOfPeriod = "" then "Unknown" else bill.dateOfPeriod

/-- The bucket key of `chartData` for the effective grouping mode. -/
def reportKey (egb : GroupByType) (selectedYear : String) (bill : BillRecord) : String :=
  match egb with
  | .period => reportPeriodKey selectedYear bill
  | .biller => if bill.billName = "" then "Unknown" else bill.billName

/-- One step of the `reduce` accumulation in `chartData`: add an amount
to the bucket for a key, inserting the bucket on first encounter
(JS object property update, insertion order preserved). -/
def addAmount : List (String × Rat) → String → Rat → List (String × Rat)
  | [], k, a => [(k, a)]
  | (k2, v) :: rest, k, a =>
    if k2 = k then (k2, v + a) :: rest
    else (k2, v) :: addAmount rest k a

/-- The cross-year bucket comparator of `chartData` (source lines
115-119): an unparseable first label sorts after, an unparseable second
label sorts before, two parsed labels compare by time. -/
def bucketCompare (env : JSEnv) (a b : String) : Int :=
  match env.parseDate a with
  | none => 1
  | some ta =>
    match env.parseDate b with
    | none => -1
    | some tb => ta - tb

/-- The sort predicate selected by the branching at the end of the
`chartData` memo: month-table order for the single-year period view,
generic-date comparison for the cross-year period view, amount
descending for the biller view.  A JS comparator `cmp` and a
less-or-equal predicate `cmp a b <= 0` drive the same stable sort. -/
def chartSortLe (env : JSEnv) (egb : GroupByType) (selectedYear : String) :
    (String × Rat) → (String × Rat) → Bool :=
  match egb with
  | .period =>
    if selectedYear ≠ "all" then
      fun a b =>
        decide ((monthOrderLookup (getMonthFromPeriod a.1)).getD 99 ≤
          (monthOrderLookup (getMonthFromPeriod b.1)).getD 99)
    else
      fun a b => decide (bucketCompare env a.1 b.1 ≤ 0)
  | .biller => fun a b => decide (b.2 ≤ a.2)

/-- The `chartData` memo of ReportDashboard.tsx: filter, bucket by the
effective grouping key, and sort.  The JS `Array.prototype.sort` (stable
since ES2019) is modelled by the stable `List.mergeSort`; for the
cross-year comparator, which is inconsistent on pairs of unparseable
labels, JS leaves the result implementation-defined and the model fixes
the stable-merge-sort outcome. -/
def chartData (env : JSEnv) (bills : List BillRecord)
    (selectedBiller selectedYear : String) (groupBy : GroupByType) :
    List (String × Rat) :=
  let egb := if selectedBiller ≠ "all" then GroupByType.period else groupBy
  (((reportFilter bills selectedBiller selectedYear).foldl
    (fun acc bill => addAmount acc (reportKey egb selectedYear bill) bill.amount)
    []).mergeSort (chartSortLe env egb selectedYear))

/-- Status toggle `currentStatus === 'paid' ? 'unpaid' : 'paid'`. -/
def toggledStatus : BillStatus → BillStatus
  | .paid => .unpaid
  | .unpaid => .paid

/-- `bills.map(b => b.id === id ? { ...b, status } : b)`. -/
def setStatus (bills : List BillRecord) (id : String) (st : BillStatus) :
    List BillRecord :=
  bills.map fun b => if b.id = id then { b with status := st } else b

/-- The record-collection effect of `handleToggleStatus` in App.tsx: the
optimistic update applies the toggled status; when the store call fails,
the handler recomputes from the pre-update `bills` closure value and
restores `currentStatus` on the target record. -/
def handleToggleStatus (bills : List BillRecord) (id : String)
    (currentStatus : BillStatus) (storeOk : Bool) : List BillRecord :=
  let newStatus := toggledStatus currentStatus
  let updatedBills := setStatus bills id newStatus
  if storeOk then updatedBills else setStatus bills id currentStatus

/-- The record-collection effect of `handleDelete` in App.tsx: the
optimistic update removes the record; when the store call fails, the
saved `prevBills` copy is restored. -/
def handleDelete (bills : List BillRecord) (id : String) (storeOk : Bool) :
    List BillRecord :=
  let prevBills := bills
  let afterDelete := bills.filter fun b => decide (b.id ≠ id)
  if storeOk then afterDelete else prevBills

/-- Whether layer 1 of the resolver produces the result: the numeric
pattern matches and its middle group is a valid month number. -/
def numericFired (s : String) : Bool :=
  match numericScan s.toList with
  | some (p2, _) => 1 ≤ p2 && p2 ≤ 12
  | none => false

/-- The lower-cased three-letter forms of the twelve months; every month
alternative starts (case-insensitively) with one of these. -/
def lowerTriples : List (List Char) :=
  [['j','a','n'], ['f','e','b'], ['m','a','r'], ['a','p','r'],
   ['m','a','y'], ['j','u','n'], ['j','u','l'], ['a','u','g'],
   ['s','e','p'], ['o','c','t'], ['n','o','v'], ['d','e','c']]

/-- The year pattern `20[2-3]\d` of layer 2 as a predicate on a
four-character candidate — exactly the 4-digit years 2020-2039 (see
`resolver_year_pattern_covers`). -/
def isResolverYear (y : List Char) : Bool :=
  match y with
  | [a, b, c, d] => a = '2' && b = '0' && (c = '2' || c = '3') && d.isDigit
  | _ => false

/-- The spec-side reading of the claim's status-filter condition: the
filter names the same status value the record has. -/
def statusFilterEq (fs : FilterStatus) (st : BillStatus) : Prop :=
  (fs = FilterStatus.paid ∧ st = BillStatus.paid) ∨
    (fs = FilterStatus.unpaid ∧ st = BillStatus.unpaid)

/-- A sample record: an SL Telecom bill created at the epoch
milliseconds of 2024-03-05T00:00:00Z, with an empty period string. -/
def baseBill : BillRecord where
  id := "b0"
  billName := "SL Telecom"
  dateOfPeriod := ""
  dueDate := none
  amount := 10
  currency := "Rs."
  summary := none
  createdAt := 1709596800000
  status := .unpaid

/-- Sample record with a slash-separated numeric period. -/
def billSlash : BillRecord := { baseBill with dateOfPeriod := "15/10/2023" }

/-- Sample record with a dot-separated numeric period. -/
def billDot : BillRecord := { baseBill with dateOfPeriod := "15.10.2023" }

/-- Sample record with a textual month-and-year period. -/
def billText : BillRecord := { baseBill with dateOfPeriod := "Billing for October 2023" }

/-- An environment like `envEn` whose generic date parser recognizes two
specific labels, with October before November. -/
def envParse : JSEnv :=
  { envEn with
    parseDate := fun s =>
      if s = "Oct 2023" then some 100
      else if s = "Nov 2023" then some 200
      else none }

/-- Records for the biller-grouping example of the spec. -/
def exampleBills : List BillRecord :=
  [{ baseBill with id := "a1", billName := "A", amount := 10, createdAt := 3 },
   { baseBill with id := "a2", billName := "A", amount := 5, createdAt := 2 },
   { baseBill with id := "b1", billName := "B", amount := 3, createdAt := 1 }]

/-- Records for the toggle/delete revert witness. -/
def demoBills : List BillRecord :=
  [{ baseBill with id := "x1", status := .unpaid },
   { baseBill with id := "x2", status := .paid }]

/-! ## Character-case lemmas

The resolver compares and normalizes month names case-insensitively via
`toLowerCase`/`toUpperCase`; these lemmas relate the two casings. -/

theorem toNat_ofNat_of_valid {n : Nat} (h : n < 55296) : (Char.ofNat n).toNat = n := by
  unfold Char.ofNat
  rw [dif_pos (Or.inl h)]
  rfl

theorem toUpper_of_toLower {c d : Char} (h : c.toLower = d) : c.toUpper = d.toUpper := by
  unfold Char.toLower at h
  by_cases hc : c.toNat ≥ 65 ∧ c.toNat ≤ 90
  · rw [if_pos hc] at h
    have hval : (Char.ofNat (c.toNat + 32)).toNat = c.toNat + 32 :=
      toNat_ofNat_of_valid (by omega)
    have hd : d.toNat = c.toNat + 32 := by rw [← h]; exact hval
    unfold Char.toUpper
    rw [if_neg (by omega), if_pos (by omega)]
    have h2 : d.toNat - 32 = c.toNat := by omega
    rw [h2, Char.ofNat_toNat]
  · rw [if_neg hc] at h
    rw [h]

/-! ## Month-match normalization lemmas

A successful month match always normalizes to a valid short month name,
so the `months.includes` guard of layer 2 always passes. -/

theorem altMatchAt_some {l : List Char} {m : String} (h : altMatchAt l = some m) :
    ∃ a ∈ monthAlternatives, m.toList.map Char.toLower = a.toList.map Char.toLower := by
  obtain ⟨a, ha, hfa⟩ := List.exists_of_findSome?_eq_some h
  refine ⟨a, ha, ?_⟩
  simp only [lowerEq] at hfa
  split at hfa
  · next hcond =>
    rw [Bool.and_eq_true, decide_eq_true_eq, decide_eq_true_eq] at hcond
    have hm : m = String.mk (l.take a.toList.length) := (Option.some.inj hfa).symm
    rw [hm]
    exact hcond.2
  · exact absurd hfa (by simp)

theorem monthScan_some : ∀ {l : List Char} {m : String}, monthScan l = some m →
    ∃ a ∈ monthAlternatives, m.toList.map Char.toLower = a.toList.map Char.toLower := by
  intro l
  induction l with
  | nil => intro m h; simp [monthScan] at h
  | cons c rest ih =>
    intro m h
    rw [monthScan] at h
    cases halt : altMatchAt (c :: rest) with
    | some r =>
      rw [halt] at h
      exact (Option.some.inj h) ▸ altMatchAt_some halt
    | none =>
      rw [halt] at h
      exact ih h

theorem normalize_eval {m : String} {x y z : Char}
    (h : (m.toList.take 3).map Char.toLower = [x, y, z]) :
    normalizeShortMonth m = String.mk [x.toUpper, y, z] := by
  have hlen : (m.toList.take 3).length = 3 := by
    rw [← List.length_map (m.toList.take 3) Char.toLower, h]
    rfl
  obtain ⟨c0, c1, c2, he⟩ := List.length_eq_three.mp hlen
  rw [he] at h
  simp only [List.map, List.cons.injEq] at h
  obtain ⟨h0, h1, h2, _⟩ := h
  unfold normalizeShortMonth
  rw [he]
  simp only [List.map]
  rw [h1, h2, toUpper_of_toLower h0]

theorem alt_triple : ∀ a ∈ monthAlternatives, (a.toList.take 3).map Char.toLower ∈ lowerTriples := by
  decide

theorem monthScan_contains {l : List Char} {m : String} (h : monthScan l = some m) :
    monthsShort.contains (normalizeShortMonth m) = true := by
  obtain ⟨a, ha, hm⟩ := monthScan_some h
  have ht : (m.toList.take 3).map Char.toLower ∈ lowerTriples := by
    rw [List.map_take, hm, ← List.map_take]
    exact alt_triple a ha
  simp only [lowerTriples, List.mem_cons, List.not_mem_nil, or_false] at ht
  rcases ht with h1|h1|h1|h1|h1|h1|h1|h1|h1|h1|h1|h1 <;>
    rw [normalize_eval h1] <;> decide

/-! ## C1, C2, C4 -/

unseal List.merge List.mergeSort in
/-- C1 (counterexample): the claim that the canonical period key is
identical at every site fails — for a record whose `dateOfPeriod` is
"15/10/2023" the resolver yields "Oct 2023" while the report's
cross-year aggregation buckets it under the raw string "15/10/2023". -/
theorem report_bucket_key_differs_from_resolver :
    getBillMonthYear envEn billSlash = "Oct 2023" ∧
    reportPeriodKey "all" billSlash = "15/10/2023" ∧
    chartData envEn [billSlash] "all" "all" GroupByType.period = [("15/10/2023", 10)] ∧
    reportPeriodKey "all" billSlash ≠ getBillMonthYear envEn billSlash := by
  decide

/-- C1 (amended): the two copy-pasted resolver sites, `formatPeriod`
(list rows) and `getBillMonthYear` (filter dropdown and filter match),
agree on every record in every environment; the report aggregation,
however, buckets by the raw `dateOfPeriod` and need not agree. -/
theorem formatPeriod_eq_getBillMonthYear (env : JSEnv) (b : BillRecord) :
    formatPeriod env b = getBillMonthYear env b := rfl

/-- C2 (amended): when the first numeric-date match of `dateOfPeriod`
(one-or-two digits, then '/' or '-', then one-or-two digits, then '/'
or '-', then four digits) has a middle group in [1,12], the resolver
returns that month's abbreviation, a space, and the decimal value of
the four-digit year group — regardless of `dueDate`, `createdAt` and
environment. -/
theorem numeric_layer_resolves (env : JSEnv) (b : BillRecord) (p2 p3 : Nat)
    (h : numericScan b.dateOfPeriod.toList = some (p2, p3))
    (h1 : 1 ≤ p2) (h2 : p2 ≤ 12) :
    getBillMonthYear env b = monthsShort.getD (p2 - 1) "" ++ " " ++ toString p3 := by
  unfold getBillMonthYear
  rw [h]
  simp [h1, h2]

/-- Witness for C2: "15/10/2023" resolves to "Oct 2023". -/
theorem numeric_layer_resolves_witness :
    getBillMonthYear envEn billSlash = "Oct 2023" :=
  (numeric_layer_resolves envEn billSlash 10 2023 (by decide) (by decide)
    (by decide)).trans (by decide)

/-- C2 (counterexample): the claim admits '.' as a separator, but the
source regex accepts only '/' and '-'; "15.10.2023" does not hit the
numeric layer and falls through to the createdAt fallback. -/
theorem dot_separator_not_recognized :
    billDot.dateOfPeriod = "15.10.2023" ∧
    getBillMonthYear envEn billDot = "Mar 2024" ∧
    getBillMonthYear envEn billDot ≠ "Oct 2023" := by
  decide

/-- C4: the resolver is total — it returns a string on every input —
and a record with no date signal and `createdAt` at the epoch
milliseconds of 2024-03-05 resolves to "Mar 2024". -/
theorem resolver_total_and_epoch_fallback :
    (∀ (env : JSEnv) (b : BillRecord), ∃ s : String, getBillMonthYear env b = s) ∧
    getBillMonthYear envEn baseBill = "Mar 2024" :=
  ⟨fun env b => ⟨getBillMonthYear env b, rfl⟩, by decide⟩

/-! ## C9, C6, C10 -/

theorem step2_env_indep {env1 env2 : JSEnv} {b : BillRecord}
    (hm : (monthScan (searchText b).toList).isSome = true)
    (hy : (yearScan (searchText b).toList).isSome = true) :
    resolverStep2 env1 b = resolverStep2 env2 b := by
  obtain ⟨m, hm⟩ := Option.isSome_iff_exists.mp hm
  obtain ⟨y, hy⟩ := Option.isSome_iff_exists.mp hy
  unfold resolverStep2
  rw [hm, hy]
  have hcont : normalizeShortMonth m ∈ monthsShort := by
    simpa using monthScan_contains hm
  simp [hcont]

/-- C9 (amended): the resolver is deterministic given a fixed
environment, and its output is independent of the environment (locale,
timezone, date parser) whenever layer 1 fires or layer 2 finds both an
explicit month and an explicit year; the remaining paths consult the
environment locale/timezone. -/
theorem resolver_env_independent (env1 env2 : JSEnv) (b : BillRecord)
    (h : numericFired b.dateOfPeriod = true ∨
      ((monthScan (searchText b).toList).isSome = true ∧
        (yearScan (searchText b).toList).isSome = true)) :
    getBillMonthYear env1 b = getBillMonthYear env2 b := by
  unfold getBillMonthYear
  cases hn : numericScan b.dateOfPeriod.toList with
  | some p =>
    obtain ⟨p2, p3⟩ := p
    by_cases hc : (1 ≤ p2 && p2 ≤ 12) = true
    · simp [hc]
    · simp only [hc, if_neg, Bool.false_eq_true, if_false]
      rcases h with h | ⟨hm, hy⟩
      · exfalso; unfold numericFired at h; rw [hn] at h; exact hc h
      · exact step2_env_indep hm hy
  | none =>
    rcases h with h | ⟨hm, hy⟩
    · exfalso; unfold numericFired at h; rw [hn] at h; exact Bool.false_ne_true h
    · exact step2_env_indep hm hy

/-- Witness for C9: layer-1 outputs agree across the en and fr
environments. -/
theorem resolver_env_independent_witness :
    getBillMonthYear envEn billSlash = getBillMonthYear envFr billSlash :=
  resolver_env_independent envEn envFr billSlash (Or.inl (by decide))

/-- C9 (counterexample): the claim that the result has no dependence on
the environment locale fails — a record with no date signal resolves to
"Mar 2024" under an en-US default locale and "mars 2024" under fr-FR. -/
theorem resolver_depends_on_locale :
    getBillMonthYear envEn baseBill = "Mar 2024" ∧
    getBillMonthYear envFr baseBill = "mars 2024" ∧
    getBillMonthYear envEn baseBill ≠ getBillMonthYear envFr baseBill := by
  decide

/-- C6 (amended): the cross-year bucket comparator places an
unparseable first label after the second label, a parseable first label
before an unparseable second, and orders two parseable labels by
ascending parsed time.  (On a pair of unparseable labels it is
inconsistent — see the counterexample.) -/
theorem bucketCompare_ordering (env : JSEnv) (a b : String) :
    (env.parseDate a = none → bucketCompare env a b = 1) ∧
    (∀ ta, env.parseDate a = some ta → env.parseDate b = none →
      bucketCompare env a b = -1) ∧
    (∀ ta tb, env.parseDate a = some ta → env.parseDate b = some tb →
      bucketCompare env a b = ta - tb) := by
  refine ⟨?_, ?_, ?_⟩ <;> intros <;> simp [bucketCompare, *]

/-- Witness for C6 at concrete labels under a parser that recognizes
two of them. -/
theorem bucketCompare_ordering_witness :
    bucketCompare envParse "foo" "Oct 2023" = 1 ∧
    bucketCompare envParse "Oct 2023" "foo" = -1 ∧
    bucketCompare envParse "Oct 2023" "Nov 2023" = 100 - 200 := by
  obtain ⟨h1, _, _⟩ := bucketCompare_ordering envParse "foo" "Oct 2023"
  obtain ⟨_, k2, _⟩ := bucketCompare_ordering envParse "Oct 2023" "foo"
  obtain ⟨_, _, g3⟩ := bucketCompare_ordering envParse "Oct 2023" "Nov 2023"
  exact ⟨h1 (by decide), k2 100 (by decide) (by decide),
    g3 100 200 (by decide) (by decide)⟩

/-- C6 (counterexample): on two labels that both fail to parse the
comparator returns 1 for both argument orders, i.e. it orders each
after the other, refuting the claimed consistency on such pairs. -/
theorem bucketCompare_inconsistent_on_unparseable :
    envEn.parseDate "foo" = none ∧ envEn.parseDate "bar" = none ∧
    bucketCompare envEn "foo" "bar" = 1 ∧ bucketCompare envEn "bar" "foo" = 1 := by
  decide

/-- C10: when the store call fails, the error path of the status toggle
restores the record's prior status (the `currentStatus` argument, which
callers pass as the record's current status), and the error path of
delete restores the saved previous collection; both leave the
collection exactly as it was before the operation. -/
theorem handlers_revert_on_store_failure (bills : List BillRecord) (id : String)
    (currentStatus : BillStatus)
    (h : ∀ b ∈ bills, b.id = id → b.status = currentStatus) :
    handleToggleStatus bills id currentStatus false = bills ∧
    handleDelete bills id false = bills := by
  constructor
  · show setStatus bills id currentStatus = bills
    unfold setStatus
    have hmap : ∀ x ∈ bills,
        (if x.id = id then { x with status := currentStatus } else x) = x := by
      intro x hx
      by_cases hid : x.id = id
      · rw [if_pos hid, ← h x hx hid]
      · rw [if_neg hid]
    rw [List.map_congr_left hmap]
    exact List.map_id' bills
  · rfl

/-- Witness for C10 on a concrete two-record collection. -/
theorem handlers_revert_witness :
    handleToggleStatus demoBills "x1" BillStatus.unpaid false = demoBills ∧
    handleDelete demoBills "x1" false = demoBills :=
  handlers_revert_on_store_failure demoBills "x1" BillStatus.unpaid (by decide)

/-! ## C7 -/

theorem matchesSearch_iff (searchTerm : String) (b : BillRecord) :
    matchesSearch searchTerm b = true ↔
      (jsIncludes (jsToLowerStr b.billName) (jsToLowerStr searchTerm) = true ∨
        ∃ s, b.summary = some s ∧
          jsIncludes (jsToLowerStr s) (jsToLowerStr searchTerm) = true) := by
  unfold matchesSearch
  cases hs : b.summary with
  | none => simp
  | some s =>
    simp only [Bool.or_eq_true, Bool.and_eq_true, decide_eq_true_eq]
    constructor
    · rintro (h | ⟨hne, h⟩)
      · exact Or.inl h
      · exact Or.inr ⟨s, rfl, h⟩
    · rintro (h | ⟨s2, hs2, h⟩)
      · exact Or.inl h
      · have hss : s2 = s := (Option.some.inj hs2).symm
        subst hss
        by_cases hempty : s2 = ""
        · subst hempty
          left
          have hnil : (jsToLowerStr searchTerm).data <:+: ([] : List Char) := by
            have e : (jsToLowerStr "").data = ([] : List Char) := rfl
            simpa [jsIncludes, e] using h
          have hterm : (jsToLowerStr searchTerm).data = [] := by
            simpa using hnil
          have hgoal : ([] : List Char) <:+: (jsToLowerStr b.billName).data :=
            List.nil_infix
          rw [← hterm] at hgoal
          simpa [jsIncludes] using hgoal
        · exact Or.inr ⟨hempty, h⟩

theorem statusMatches_iff (fs : FilterStatus) (st : BillStatus) :
    statusMatches fs st = true ↔ (fs = FilterStatus.all ∨ statusFilterEq fs st) := by
  cases fs <;> cases st <;> simp [statusMatches, statusFilterEq]

/-- C7: a record appears in the filtered list iff it is in the
collection and simultaneously matches the free-text search
(case-insensitive containment in billName or, when present, in
summary), the status filter ('all' or the record's status), and the
month filter ('all' or exact string equality with the record's
canonical period key). -/
theorem filteredBills_mem_iff (env : JSEnv) (bills : List BillRecord)
    (searchTerm : String) (fs : FilterStatus) (filterMonth : String) (b : BillRecord) :
    b ∈ filteredBills env bills searchTerm fs filterMonth ↔
      b ∈ bills ∧
      (jsIncludes (jsToLowerStr b.billName) (jsToLowerStr searchTerm) = true ∨
        ∃ s, b.summary = some s ∧
          jsIncludes (jsToLowerStr s) (jsToLowerStr searchTerm) = true) ∧
      (fs = FilterStatus.all ∨ statusFilterEq fs b.status) ∧
      (filterMonth = "all" ∨ getBillMonthYear env b = filterMonth) := by
  unfold filteredBills
  rw [List.mem_filter]
  simp only [Bool.and_eq_true, Bool.or_eq_true, decide_eq_true_eq,
    matchesSearch_iff, statusMatches_iff]
  tauto

/-! ## Association-list lemmas (JS object accumulation) -/

theorem lookup_mem {β : Type} : ∀ {l : List (String × β)} {k : String} {v : β},
    l.lookup k = some v → (k, v) ∈ l := by
  intro l
  induction l with
  | nil => intro k v h; simp at h
  | cons hd tl ih =>
    intro k v h
    obtain ⟨k2, v2⟩ := hd
    rw [List.lookup_cons] at h
    by_cases hk : k = k2
    · subst hk
      simp at h
      subst h
      exact List.mem_cons_self _ _
    · have hbeq : (k == k2) = false := beq_false_of_ne hk
      rw [hbeq] at h
      exact List.mem_cons_of_mem _ (ih h)

theorem mem_lookup {β : Type} : ∀ {l : List (String × β)},
    (l.map Prod.fst).Nodup → ∀ {k : String} {v : β}, (k, v) ∈ l → l.lookup k = some v := by
  intro l
  induction l with
  | nil => intro _ k v h; simp at h
  | cons hd tl ih =>
    intro hnd k v h
    obtain ⟨k2, v2⟩ := hd
    rw [List.map_cons, List.nodup_cons] at hnd
    rw [List.mem_cons] at h
    rcases h with h | h
    · rw [Prod.mk.injEq] at h
      obtain ⟨h1, h2⟩ := h
      subst h1
      subst h2
      rw [List.lookup_cons]
      simp
    · have hk2 : k ∈ tl.map Prod.fst := List.mem_map.mpr ⟨(k, v), h, rfl⟩
      have hk : k ≠ k2 := fun he => hnd.1 (he ▸ hk2)
      rw [List.lookup_cons, beq_false_of_ne hk]
      exact ih hnd.2 h

theorem lookup_isSome_iff_mem_keys {β : Type} : ∀ {l : List (String × β)} {k : String},
    ((l.lookup k).isSome = true) ↔ k ∈ l.map Prod.fst := by
  intro l
  induction l with
  | nil => intro k; simp
  | cons hd tl ih =>
    intro k
    obtain ⟨k2, v2⟩ := hd
    rw [List.lookup_cons, List.map_cons, List.mem_cons]
    by_cases hk : k = k2
    · subst hk; simp
    · rw [beq_false_of_ne hk]
      simp [hk, ih]

theorem lookup_perm {β : Type} {l l2 : List (String × β)} (hp : l.Perm l2)
    (hnd : (l.map Prod.fst).Nodup) (k : String) : l.lookup k = l2.lookup k := by
  have hnd2 : (l2.map Prod.fst).Nodup := ((hp.map Prod.fst).nodup_iff).mp hnd
  cases h : l.lookup k with
  | some v => exact (mem_lookup hnd2 (hp.mem_iff.mp (lookup_mem h))).symm
  | none =>
    cases h2 : l2.lookup k with
    | none => rfl
    | some v =>
      exfalso
      have : (k, v) ∈ l := hp.mem_iff.mpr (lookup_mem h2)
      rw [mem_lookup hnd this] at h
      exact Option.noConfusion h

/-! ## C8: biller grouping -/

theorem pushGroup_lookup : ∀ (gs : List (String × List BillRecord)) (m n : String) (b : BillRecord),
    (pushGroup gs m b).lookup n =
      if m = n then some ((gs.lookup n).getD [] ++ [b]) else gs.lookup n := by
  intro gs
  induction gs with
  | nil =>
    intro m n b
    by_cases h : m = n
    · subst h
      simp [pushGroup, List.lookup_cons]
    · simp [pushGroup, List.lookup_cons, beq_false_of_ne (Ne.symm h), h]
  | cons hd tl ih =>
    intro m n b
    obtain ⟨k, v⟩ := hd
    unfold pushGroup
    by_cases hkm : k = m
    · subst hkm
      rw [if_pos rfl]
      by_cases hkn : k = n
      · subst hkn
        simp [List.lookup_cons]
      · rw [if_neg hkn]
        simp [List.lookup_cons, beq_false_of_ne (Ne.symm hkn), hkn]
    · rw [if_neg hkm]
      by_cases hnk : n = k
      · subst hnk
        have hmn : m ≠ n := fun he => hkm (he.symm)
        simp [List.lookup_cons, hmn]
      · simp only [List.lookup_cons, beq_false_of_ne hnk]
        rw [ih]

theorem groupsFold_getD : ∀ (bills : List BillRecord)
    (acc : List (String × List BillRecord)) (n : String),
    (((bills.foldl (fun gs b => pushGroup gs (billLabel b) b) acc).lookup n).getD []) =
      ((acc.lookup n).getD []) ++ bills.filter (fun b => billLabel b == n) := by
  intro bills
  induction bills with
  | nil => intro acc n; simp
  | cons b rest ih =>
    intro acc n
    rw [List.foldl_cons, ih, pushGroup_lookup]
    by_cases h : billLabel b = n
    · rw [if_pos h]
      simp [List.filter_cons, h]
    · rw [if_neg h]
      simp [List.filter_cons, beq_false_of_ne h]

theorem groupsFold_isSome : ∀ (bills : List BillRecord)
    (acc : List (String × List BillRecord)) (n : String),
    (((bills.foldl (fun gs b => pushGroup gs (billLabel b) b) acc).lookup n).isSome) =
      ((acc.lookup n).isSome || bills.any (fun b => billLabel b == n)) := by
  intro bills
  induction bills with
  | nil => intro acc n; simp
  | cons b rest ih =>
    intro acc n
    rw [List.foldl_cons, ih, pushGroup_lookup]
    by_cases h : billLabel b = n
    · rw [if_pos h]
      simp [List.any_cons, h]
    · rw [if_neg h]
      simp [List.any_cons, beq_false_of_ne h]

theorem pushGroup_keys : ∀ (gs : List (String × List BillRecord)) (m : String) (b : BillRecord),
    (pushGroup gs m b).map Prod.fst =
      if m ∈ gs.map Prod.fst then gs.map Prod.fst else gs.map Prod.fst ++ [m] := by
  intro gs
  induction gs with
  | nil => intro m b; simp [pushGroup]
  | cons hd tl ih =>
    intro m b
    obtain ⟨k, v⟩ := hd
    unfold pushGroup
    by_cases hkm : k = m
    · subst hkm
      simp
    · rw [if_neg hkm]
      simp only [List.map_cons, ih, List.mem_cons]
      by_cases hm : m ∈ tl.map Prod.fst
      · simp [hm, Ne.symm hkm]
      · simp [hm, Ne.symm hkm]

theorem groupsFold_keys_nodup : ∀ (bills : List BillRecord)
    (acc : List (String × List BillRecord)),
    (acc.map Prod.fst).Nodup →
    (((bills.foldl (fun gs b => pushGroup gs (billLabel b) b) acc)).map Prod.fst).Nodup := by
  intro bills
  induction bills with
  | nil => intro acc h; simpa using h
  | cons b rest ih =>
    intro acc h
    rw [List.foldl_cons]
    apply ih
    rw [pushGroup_keys]
    by_cases hm : billLabel b ∈ acc.map Prod.fst
    · simpa [hm] using h
    · simp only [hm, if_false]
      simp [List.nodup_append, h, hm]

theorem jsOr0_eq (n : Int) : jsOr0 n = n := by
  unfold jsOr0
  split <;> omega

theorem foldl_max_mem : ∀ (l : List Int) (i : Int), l.foldl max i = i ∨ l.foldl max i ∈ l := by
  intro l
  induction l with
  | nil => intro i; left; rfl
  | cons c rest ih =>
    intro i
    rw [List.foldl_cons]
    rcases ih (max i c) with h | h
    · rw [h]
      rcases max_choice i c with h2 | h2
      · left; exact h2
      · right; rw [h2]; exact List.mem_cons_self _ _
    · right; exact List.mem_cons_of_mem _ h

theorem foldl_max_ub1 : ∀ (l : List Int) (i : Int), i ≤ l.foldl max i := by
  intro l
  induction l with
  | nil => intro i; exact le_refl i
  | cons c rest ih =>
    intro i
    rw [List.foldl_cons]
    exact le_trans (le_max_left i c) (ih (max i c))

theorem foldl_max_ub2 : ∀ (l : List Int) (i x : Int), x ∈ l → x ≤ l.foldl max i := by
  intro l
  induction l with
  | nil => intro i x h; simp at h
  | cons c rest ih =>
    intro i x h
    rw [List.foldl_cons]
    rcases List.mem_cons.mp h with h | h
    · subst h
      exact le_trans (le_max_right i x) (foldl_max_ub1 rest (max i x))
    · exact ih (max i c) x h

theorem maxCreatedAt_spec (items : List BillRecord) (h : items ≠ []) :
    maxCreatedAt items ∈ items.map (fun i => i.createdAt) ∧
    ∀ x ∈ items, x.createdAt ≤ maxCreatedAt items := by
  match items with
  | [] => exact absurd rfl h
  | i :: rest =>
    unfold maxCreatedAt
    simp only [jsOr0_eq]
    have hfold : rest.foldl (fun m b => max m b.createdAt) i.createdAt =
        (rest.map (fun b => b.createdAt)).foldl max i.createdAt := by
      rw [List.foldl_map]
    rw [hfold]
    constructor
    · rcases foldl_max_mem (rest.map (fun b => b.createdAt)) i.createdAt with h2 | h2
      · rw [h2]; simp
      · simp only [List.map_cons, List.mem_cons]
        right; exact h2
    · intro x hx
      rcases List.mem_cons.mp hx with h2 | h2
      · subst h2
        exact foldl_max_ub1 _ _
      · exact foldl_max_ub2 _ _ _ (List.mem_map_of_mem (fun b => b.createdAt) h2)

theorem mem_groupedBills {bills : List BillRecord} {g : BillerGroup} :
    g ∈ groupedBills bills ↔
      ∃ p ∈ bills.foldl (fun gs b => pushGroup gs (billLabel b) b) [],
        g = { name := p.1, items := p.2, total := sumAmounts p.2,
              latest := maxCreatedAt p.2 } := by
  unfold groupedBills
  simp only [List.mem_mergeSort, List.mem_map]
  constructor
  · rintro ⟨p, hp, rfl⟩
    exact ⟨p, hp, rfl⟩
  · rintro ⟨p, hp, rfl⟩
    exact ⟨p, hp, rfl⟩

unseal List.merge List.mergeSort in
/-- C8: biller grouping partitions the records by `billName` (label
"Unknown" for an empty name): each group's items are exactly the records
carrying its label in order, every record is covered, group names are
distinct, each total is the sum of the group's amounts, each recency
marker is the maximum `createdAt` of the group, and groups are ordered
by recency marker descending; the spec's concrete example yields group
"A" with total 15 and group "B" with total 3. -/
theorem groupedBills_spec (bills : List BillRecord) :
    (∀ g ∈ groupedBills bills,
      g.items = bills.filter (fun b => billLabel b == g.name) ∧
      g.items ≠ [] ∧
      g.total = sumAmounts g.items ∧
      g.latest ∈ g.items.map (fun i => i.createdAt) ∧
      (∀ x ∈ g.items, x.createdAt ≤ g.latest)) ∧
    (∀ b ∈ bills, ∃ g ∈ groupedBills bills, g.name = billLabel b ∧ b ∈ g.items) ∧
    ((groupedBills bills).map (fun g => g.name)).Nodup ∧
    (groupedBills bills).Pairwise (fun a b => b.latest ≤ a.latest) ∧
    (groupedBills exampleBills).map (fun g => (g.name, g.total)) =
      [("A", (15 : Rat)), ("B", (3 : Rat))] := by
  have hnd : (((bills.foldl (fun gs b => pushGroup gs (billLabel b) b) []).map
      Prod.fst)).Nodup :=
    groupsFold_keys_nodup bills [] (by simp)
  refine ⟨?_, ?_, ?_, ?_, ?_⟩
  · intro g hg
    rw [mem_groupedBills] at hg
    obtain ⟨⟨n, items⟩, hp, hgeq⟩ := hg
    subst hgeq
    have hlook : (bills.foldl (fun gs b => pushGroup gs (billLabel b) b) []).lookup n =
        some items := mem_lookup hnd hp
    have hitems : items = bills.filter (fun b => billLabel b == n) := by
      have h2 := groupsFold_getD bills [] n
      rw [hlook] at h2
      simpa using h2
    have hne : items ≠ [] := by
      have hs := groupsFold_isSome bills [] n
      rw [hlook] at hs
      simp only [Option.isSome_some, List.lookup_nil, Option.isSome_none,
        Bool.false_or] at hs
      obtain ⟨b, hb, hbl⟩ := List.any_eq_true.mp hs.symm
      rw [hitems]
      intro hemp
      exact absurd (hemp ▸ List.mem_filter.mpr ⟨hb, hbl⟩) (List.not_mem_nil b)
    exact ⟨hitems, hne, rfl, (maxCreatedAt_spec items hne).1,
      (maxCreatedAt_spec items hne).2⟩
  · intro b hb
    have hany : bills.any (fun x => billLabel x == billLabel b) = true :=
      List.any_eq_true.mpr ⟨b, hb, by simp⟩
    have hs := groupsFold_isSome bills [] (billLabel b)
    rw [hany] at hs
    simp only [List.lookup_nil, Option.isSome_none, Bool.false_or] at hs
    obtain ⟨items, hlook⟩ := Option.isSome_iff_exists.mp hs
    have hitems : items = bills.filter (fun x => billLabel x == billLabel b) := by
      have h2 := groupsFold_getD bills [] (billLabel b)
      rw [hlook] at h2
      simpa using h2
    refine ⟨⟨billLabel b, items, sumAmounts items, maxCreatedAt items⟩, ?_, rfl, ?_⟩
    · rw [mem_groupedBills]
      exact ⟨(billLabel b, items), lookup_mem hlook, rfl⟩
    · rw [hitems]
      exact List.mem_filter.mpr ⟨hb, by simp⟩
  · have hp : ((groupedBills bills).map (fun g => g.name)).Perm
        (((bills.foldl (fun gs b => pushGroup gs (billLabel b) b) []).map
          (fun p => (⟨p.1, p.2, sumAmounts p.2, maxCreatedAt p.2⟩ : BillerGroup))).map
          (fun g => g.name)) := by
      exact (List.mergeSort_perm _ _).map _
    rw [List.Perm.nodup_iff hp]
    rw [List.map_map]
    exact hnd
  · have hs := @List.sorted_mergeSort BillerGroup
      (fun a b => decide (b.latest ≤ a.latest))
      (by intro a b c h1 h2; simp only [decide_eq_true_eq] at h1 h2 ⊢; omega)
      (by intro a b; simp only [Bool.or_eq_true, decide_eq_true_eq]; omega)
      ((bills.foldl (fun gs b => pushGroup gs (billLabel b) b) []).map
        (fun p => (⟨p.1, p.2, sumAmounts p.2, maxCreatedAt p.2⟩ : BillerGroup)))
    unfold groupedBills
    exact hs.imp (fun h => of_decide_eq_true h)
  · have h : (groupedBills exampleBills).map (fun g => (g.name, g.total)) =
        [("A", 0 + (10 : Rat) + 5), ("B", 0 + (3 : Rat))] := rfl
    rw [h]
    norm_num

/-- Witness for C8: the characterization applied to the example
records. -/
theorem groupedBills_spec_witness :
    ∃ g ∈ groupedBills exampleBills,
      g.items = exampleBills.filter (fun b => billLabel b == g.name) := by
  obtain ⟨hchar, hcov, _, _, _⟩ := groupedBills_spec exampleBills
  obtain ⟨g, hg, _, _⟩ := hcov
    { baseBill with id := "a1", billName := "A", amount := 10, createdAt := 3 }
    (by decide)
  exact ⟨g, hg, (hchar g hg).1⟩

/-! ## C5: report aggregation in the single-year period view -/

theorem addAmount_lookup : ∀ (acc : List (String × Rat)) (k n : String) (a : Rat),
    (addAmount acc k a).lookup n =
      if k = n then some ((acc.lookup n).getD 0 + a) else acc.lookup n := by
  intro acc
  induction acc with
  | nil =>
    intro k n a
    by_cases h : k = n
    · subst h
      simp [addAmount, List.lookup_cons]
    · simp [addAmount, List.lookup_cons, beq_false_of_ne (Ne.symm h), h]
  | cons hd tl ih =>
    intro k n a
    obtain ⟨k2, v⟩ := hd
    unfold addAmount
    by_cases hk2 : k2 = k
    · subst hk2
      rw [if_pos rfl]
      by_cases hkn : k2 = n
      · subst hkn
        simp [List.lookup_cons]
      · rw [if_neg hkn]
        simp [List.lookup_cons, beq_false_of_ne (Ne.symm hkn), hkn]
    · rw [if_neg hk2]
      by_cases hnk : n = k2
      · subst hnk
        have hkn : k ≠ n := fun he => hk2 (he.symm)
        simp [List.lookup_cons, hkn]
      · simp only [List.lookup_cons, beq_false_of_ne hnk]
        rw [ih]

theorem sumAmounts_shift : ∀ (l : List BillRecord) (s : Rat),
    l.foldl (fun s i => s + i.amount) s = s + sumAmounts l := by
  intro l
  induction l with
  | nil => intro s; simp [sumAmounts]
  | cons c rest ih =>
    intro s
    rw [List.foldl_cons, ih]
    have h2 : sumAmounts (c :: rest) = (0 + c.amount) + sumAmounts rest := by
      show List.foldl (fun s i => s + i.amount) 0 (c :: rest) = _
      rw [List.foldl_cons, ih]
    rw [h2]
    ring

theorem sumAmounts_cons (b : BillRecord) (l : List BillRecord) :
    sumAmounts (b :: l) = b.amount + sumAmounts l := by
  show List.foldl (fun s i => s + i.amount) 0 (b :: l) = _
  rw [List.foldl_cons, sumAmounts_shift]
  ring

theorem chartFold_getD : ∀ (bs : List BillRecord) (keyF : BillRecord → String)
    (acc : List (String × Rat)) (n : String),
    (((bs.foldl (fun acc b => addAmount acc (keyF b) b.amount) acc).lookup n).getD 0) =
      ((acc.lookup n).getD 0) + sumAmounts (bs.filter (fun b => keyF b == n)) := by
  intro bs keyF
  induction bs with
  | nil => intro acc n; simp [sumAmounts]
  | cons b rest ih =>
    intro acc n
    rw [List.foldl_cons, ih, addAmount_lookup]
    by_cases h : keyF b = n
    · rw [if_pos h]
      simp only [List.filter_cons, h, beq_self_eq_true, if_true]
      rw [sumAmounts_cons]
      simp only [Option.getD_some]
      ring
    · rw [if_neg h]
      simp [List.filter_cons, beq_false_of_ne h]

theorem chartFold_isSome : ∀ (bs : List BillRecord) (keyF : BillRecord → String)
    (acc : List (String × Rat)) (n : String),
    (((bs.foldl (fun acc b => addAmount acc (keyF b) b.amount) acc).lookup n).isSome) =
      ((acc.lookup n).isSome || bs.any (fun b => keyF b == n)) := by
  intro bs keyF
  induction bs with
  | nil => intro acc n; simp
  | cons b rest ih =>
    intro acc n
    rw [List.foldl_cons, ih, addAmount_lookup]
    by_cases h : keyF b = n
    · rw [if_pos h]
      simp [List.any_cons, h]
    · rw [if_neg h]
      simp [List.any_cons, beq_false_of_ne h]

theorem addAmount_keys : ∀ (acc : List (String × Rat)) (k : String) (a : Rat),
    (addAmount acc k a).map Prod.fst =
      if k ∈ acc.map Prod.fst then acc.map Prod.fst else acc.map Prod.fst ++ [k] := by
  intro acc
  induction acc with
  | nil => intro k a; simp [addAmount]
  | cons hd tl ih =>
    intro k a
    obtain ⟨k2, v⟩ := hd
    unfold addAmount
    by_cases hk2 : k2 = k
    · subst hk2
      simp
    · rw [if_neg hk2]
      simp only [List.map_cons, ih, List.mem_cons]
      by_cases hm : k ∈ tl.map Prod.fst
      · simp [hm, Ne.symm hk2]
      · simp [hm, Ne.symm hk2]

theorem chartFold_keys_nodup : ∀ (bs : List BillRecord) (keyF : BillRecord → String)
    (acc : List (String × Rat)),
    (acc.map Prod.fst).Nodup →
    ((bs.foldl (fun acc b => addAmount acc (keyF b) b.amount) acc).map Prod.fst).Nodup := by
  intro bs keyF
  induction bs with
  | nil => intro acc h; simpa using h
  | cons b rest ih =>
    intro acc h
    rw [List.foldl_cons]
    apply ih
    rw [addAmount_keys]
    by_cases hm : keyF b ∈ acc.map Prod.fst
    · simpa [hm] using h
    · simp only [hm, if_false]
      simp [List.nodup_append, h, hm]

/-- C5 (amended): with a specific year filter active in the period
view, a bucket exists for a key iff some filtered record maps to it
under the single-year bucket key (the first space-separated token of
the raw `dateOfPeriod`, or the raw string if that token is empty), and
the bucket's value is the sum of the amounts of the filtered records
mapping to that key. -/
theorem chartData_single_year (env : JSEnv) (bills : List BillRecord)
    (sb sy : String) (gb : GroupByType)
    (_hsy : sy ≠ "all") (hegb : sb ≠ "all" ∨ gb = GroupByType.period) (k : String) :
    ((((chartData env bills sb sy gb).lookup k).isSome = true) ↔
      ∃ b ∈ reportFilter bills sb sy, reportPeriodKey sy b = k) ∧
    ((chartData env bills sb sy gb).lookup k).getD 0 =
      sumAmounts ((reportFilter bills sb sy).filter
        (fun b => reportPeriodKey sy b == k)) := by
  have hegb2 : (if sb ≠ "all" then GroupByType.period else gb) = GroupByType.period := by
    by_cases hsb : sb = "all"
    · rcases hegb with h | h
      · exact absurd hsb h
      · simp [hsb, h]
    · simp [hsb]
  unfold chartData
  rw [hegb2]
  have hnd : (((reportFilter bills sb sy).foldl
      (fun acc bill => addAmount acc (reportKey GroupByType.period sy bill) bill.amount)
        []).map Prod.fst).Nodup :=
    chartFold_keys_nodup (reportFilter bills sb sy)
      (fun bill => reportKey GroupByType.period sy bill) [] (by simp)
  have hperm := List.mergeSort_perm
    ((reportFilter bills sb sy).foldl
      (fun acc bill => addAmount acc (reportKey GroupByType.period sy bill) bill.amount) [])
    (chartSortLe env GroupByType.period sy)
  have hnds := ((hperm.map Prod.fst).nodup_iff).mpr hnd
  have hlk := lookup_perm hperm hnds k
  rw [hlk, chartFold_isSome, chartFold_getD]
  constructor
  · simp only [List.lookup_nil, Option.isSome_none, Bool.false_or]
    rw [List.any_eq_true]
    constructor
    · rintro ⟨b, hb, hbeq⟩
      exact ⟨b, hb, by simpa [reportKey] using hbeq⟩
    · rintro ⟨b, hb, hbeq⟩
      exact ⟨b, hb, by simpa [reportKey] using hbeq⟩
  · simp only [List.lookup_nil, Option.getD_none, zero_add]
    rfl

/-- Witness for C5 on a concrete one-record collection. -/
theorem chartData_single_year_witness :
    ((((chartData envEn [billSlash] "all" "2023" GroupByType.period).lookup
        "15/10/2023").isSome = true) ↔
      ∃ b ∈ reportFilter [billSlash] "all" "2023",
        reportPeriodKey "2023" b = "15/10/2023") ∧
    ((chartData envEn [billSlash] "all" "2023" GroupByType.period).lookup
        "15/10/2023").getD 0 =
      sumAmounts ((reportFilter [billSlash] "all" "2023").filter
        (fun b => reportPeriodKey "2023" b == "15/10/2023")) :=
  chartData_single_year envEn [billSlash] "all" "2023" GroupByType.period
    (by decide) (Or.inr rfl) "15/10/2023"

unseal List.merge List.mergeSort in
/-- C5 (counterexample): the claim says the single-year bucket key is
the bare month name obtained by stripping the year from the canonical
key ("Oct" for a canonical "Oct 2023"); the code instead buckets by the
first space-separated token of the raw `dateOfPeriod`, which for
"15/10/2023" is "15/10/2023", not "Oct". -/
theorem chartData_single_year_key_is_raw_token :
    getBillMonthYear envEn billSlash = "Oct 2023" ∧
    reportPeriodKey "2023" billSlash = "15/10/2023" ∧
    chartData envEn [billSlash] "all" "2023" GroupByType.period =
      [("15/10/2023", 10)] ∧
    ("15/10/2023" : String) ≠ "Oct" := by
  decide

/-! ## C3: the textual month-and-year layer -/

/-- Every year from 2020 to 2039, written as four digits, matches the
layer-2 year pattern. -/
theorem resolver_year_pattern_covers :
    ∀ n : Nat, n < 20 → isResolverYear (toString (2020 + n)).toList = true := by
  decide

theorem isResolverYear_shape {y : List Char} (h : isResolverYear y = true) :
    ∃ a b c d, y = [a, b, c, d] ∧
      (a = '2' && b = '0' && (c = '2' || c = '3') && d.isDigit) = true := by
  rcases y with _ | ⟨a, _ | ⟨b, _ | ⟨c, _ | ⟨d, _ | ⟨e, rest⟩⟩⟩⟩⟩
  · simp [isResolverYear] at h
  · simp [isResolverYear] at h
  · simp [isResolverYear] at h
  · simp [isResolverYear] at h
  · exact ⟨a, b, c, d, rfl, h⟩
  · simp [isResolverYear] at h

theorem yearMatchAt_cons4 (a b c d : Char) (t : List Char) :
    yearMatchAt (a :: b :: c :: d :: t) =
      if (a = '2' && b = '0' && (c = '2' || c = '3') && d.isDigit) = true then
        some (String.mk [a, b, c, d])
      else none := rfl

theorem yearScan_isSome_iff : ∀ (l : List Char),
    (yearScan l).isSome = true ↔
      ∃ s t y, l = s ++ y ++ t ∧ isResolverYear y = true := by
  intro l
  induction l with
  | nil =>
    simp only [yearScan, Option.isSome_none, Bool.false_eq_true, false_iff]
    rintro ⟨s, t, y, he, hy⟩
    obtain ⟨a, b, c, d, hsh, _⟩ := isResolverYear_shape hy
    subst hsh
    exact absurd he.symm (by simp)
  | cons c0 rest ih =>
    rw [yearScan]
    cases h : yearMatchAt (c0 :: rest) with
    | some r =>
      simp only [Option.isSome_some, true_iff]
      rcases rest with _ | ⟨c2, _ | ⟨c3, _ | ⟨c4, rest4⟩⟩⟩
      · exact absurd h (by simp [yearMatchAt])
      · exact absurd h (by simp [yearMatchAt])
      · exact absurd h (by simp [yearMatchAt])
      · rw [yearMatchAt_cons4] at h
        split at h
        · next hcond => exact ⟨[], rest4, [c0, c2, c3, c4], rfl, hcond⟩
        · exact absurd h (by simp)
    | none =>
      rw [ih]
      constructor
      · rintro ⟨s, t, y, he, hy⟩
        exact ⟨c0 :: s, t, y, by simp [he], hy⟩
      · rintro ⟨s, t, y, he, hy⟩
        rcases s with _ | ⟨c2, s2⟩
        · obtain ⟨a, b, c, d, hsh, hcond⟩ := isResolverYear_shape hy
          subst hsh
          have he2 : c0 :: rest = a :: b :: c :: d :: t := by simpa using he
          rw [List.cons.injEq] at he2
          obtain ⟨rfl, he3⟩ := he2
          rw [he3, yearMatchAt_cons4, if_pos hcond] at h
          exact absurd h (by simp)
        · simp only [List.cons_append] at he
          rw [List.cons.injEq] at he
          obtain ⟨rfl, he3⟩ := he
          exact ⟨s2, t, y, by simpa using he3, hy⟩

theorem monthScan_isSome_iff : ∀ (l : List Char),
    (monthScan l).isSome = true ↔ ∃ t, t <:+ l ∧ (altMatchAt t).isSome = true := by
  intro l
  induction l with
  | nil =>
    simp only [monthScan, Option.isSome_none, Bool.false_eq_true, false_iff]
    rintro ⟨t, ht, ha⟩
    rw [List.suffix_nil.mp ht] at ha
    exact absurd ha (by decide)
  | cons c rest ih =>
    rw [monthScan]
    cases h : altMatchAt (c :: rest) with
    | some r =>
      simp only [Option.isSome_some, true_iff]
      exact ⟨c :: rest, List.suffix_refl _, by simp [h]⟩
    | none =>
      rw [ih]
      constructor
      · rintro ⟨t, ht, ha⟩
        exact ⟨t, ht.trans (List.suffix_cons c rest), ha⟩
      · rintro ⟨t, ht, ha⟩
        rcases List.suffix_cons_iff.mp ht with he | ht2
        · subst he
          rw [h] at ha
          exact absurd ha (by simp)
        · exact ⟨t, ht2, ha⟩

theorem altMatchAt_isSome_iff (t : List Char) :
    (altMatchAt t).isSome = true ↔
      ∃ a ∈ monthAlternatives, (a.toList.map Char.toLower) <+: (t.map Char.toLower) := by
  unfold altMatchAt
  rw [List.findSome?_isSome_iff]
  constructor
  · rintro ⟨a, ha, hfa⟩
    refine ⟨a, ha, ?_⟩
    simp only [lowerEq] at hfa
    split at hfa
    · next hcond =>
      rw [Bool.and_eq_true, decide_eq_true_eq, decide_eq_true_eq] at hcond
      have hlen : (a.toList.map Char.toLower).length = a.toList.length := by simp
      rw [List.prefix_iff_eq_take, hlen, ← List.map_take]
      exact hcond.2.symm
    · exact absurd hfa (by simp)
  · rintro ⟨a, ha, hpre⟩
    refine ⟨a, ha, ?_⟩
    rw [List.prefix_iff_eq_take] at hpre
    have hlen : (a.toList.map Char.toLower).length = a.toList.length := by simp
    rw [hlen, ← List.map_take] at hpre
    have hlen2 : (t.take a.toList.length).length = a.toList.length := by
      have := congrArg List.length hpre
      simpa using this.symm
    simp only [lowerEq]
    rw [if_pos]
    · simp
    · rw [Bool.and_eq_true, decide_eq_true_eq, decide_eq_true_eq]
      exact ⟨hlen2, hpre.symm⟩

theorem month_contains_iff_scan (text : List Char) :
    (∃ a ∈ monthAlternatives,
        (a.toList.map Char.toLower) <:+: (text.map Char.toLower)) ↔
      (monthScan text).isSome = true := by
  rw [monthScan_isSome_iff]
  constructor
  · rintro ⟨a, ha, hinf⟩
    rw [List.infix_iff_prefix_suffix] at hinf
    obtain ⟨T, hpre, hsuf⟩ := hinf
    obtain ⟨t, ht, hmap⟩ := List.isSuffix_map_iff.mp hsuf
    subst hmap
    exact ⟨t, ht, (altMatchAt_isSome_iff t).mpr ⟨a, ha, hpre⟩⟩
  · rintro ⟨t, ht, ha⟩
    obtain ⟨a, haalts, hpre⟩ := (altMatchAt_isSome_iff t).mp ha
    exact ⟨a, haalts,
      List.infix_iff_prefix_suffix.mpr ⟨t.map Char.toLower, hpre,
        List.IsSuffix.map Char.toLower ht⟩⟩

/-- C3: when the numeric layer does not fire and the combined
period-and-due-date text contains (case-insensitively) a full or
abbreviated English month name, the resolver returns the title-cased
first three letters of the first month match, a space, and the first
`20[2-3]\d` year match — the text contains such a year iff the match
exists — falling back to the calendar year of `createdAt` when no such
year is present. -/
theorem text_layer_resolves (env : JSEnv) (b : BillRecord)
    (h1 : numericFired b.dateOfPeriod = false)
    (h2 : ∃ a ∈ monthAlternatives,
      (a.toList.map Char.toLower) <:+: ((searchText b).toList.map Char.toLower)) :
    ∃ m, monthScan (searchText b).toList = some m ∧
      getBillMonthYear env b =
        normalizeShortMonth m ++ " " ++
          ((yearScan (searchText b).toList).getD
            (toString (getFullYear env b.createdAt))) ∧
      ((∃ s t y, (searchText b).toList = s ++ y ++ t ∧ isResolverYear y = true) ↔
        (yearScan (searchText b).toList).isSome = true) := by
  have hms : (monthScan (searchText b).toList).isSome = true :=
    (month_contains_iff_scan _).mp h2
  obtain ⟨m, hm⟩ := Option.isSome_iff_exists.mp hms
  refine ⟨m, hm, ?_, (yearScan_isSome_iff _).symm⟩
  have hstep : getBillMonthYear env b = resolverStep2 env b := by
    unfold getBillMonthYear
    cases hn : numericScan b.dateOfPeriod.toList with
    | some p =>
      obtain ⟨p2, p3⟩ := p
      unfold numericFired at h1
      rw [hn] at h1
      have h1b : (decide (1 ≤ p2) && decide (p2 ≤ 12)) = false := h1
      simp [h1b]
    | none => rfl
  rw [hstep]
  unfold resolverStep2
  rw [hm]
  have hcont : normalizeShortMonth m ∈ monthsShort := by
    simpa using monthScan_contains hm
  cases hy : yearScan (searchText b).toList with
  | some y => simp [hcont, hy]
  | none => simp [hcont, hy]

/-- Witness for C3 at `dateOfPeriod` "Billing for October 2023". -/
theorem text_layer_resolves_witness :
    ∃ m, monthScan (searchText billText).toList = some m ∧
      getBillMonthYear envEn billText =
        normalizeShortMonth m ++ " " ++
          ((yearScan (searchText billText).toList).getD
            (toString (getFullYear envEn billText.createdAt))) ∧
      ((∃ s t y, (searchText billText).toList = s ++ y ++ t ∧
          isResolverYear y = true) ↔
        (yearScan (searchText billText).toList).isSome = true) :=
  text_layer_resolves envEn billText (by decide)
    ⟨"Oct", by decide, "Billing for ".toList.map Char.toLower,
      "ober 2023 ".toList.map Char.toLower, by decide⟩

end PRBills
